import Mathlib

/-!
Shallow embedding of the spin-direction refinement logic of the cmi_exchange
example notebooks (the "fitting magnetic structures" notebook and the
atomic/magnetic co-refinement notebook), together with theorems settling the
frozen claims about it.

The notebooks orchestrate external collaborators (diffpy.mpdf's MagSpecies,
MagStructure, MPDFcalculator and scipy's least_squares).  The code that lives
in this repository is embedded directly from the notebook cells; the external
collaborators are modelled from the specification, as noted on each such
definition.  Machine floating point is modelled by exact reals.
-/

open Real

noncomputable section

/-- A 3-component vector of reals, the type of spin moments, basis vectors,
propagation vectors and site positions in the notebooks (numpy length-3
arrays). -/
@[ext]
structure Vec3 where
  x : ℝ
  y : ℝ
  z : ℝ

/-- Componentwise negation, embedding numpy's unary minus on a length-3
array. -/
def Vec3.neg (v : Vec3) : Vec3 := ⟨-v.x, -v.y, -v.z⟩

/-- Componentwise subtraction, embedding numpy's elementwise `-` on length-3
arrays. -/
def Vec3.sub (a b : Vec3) : Vec3 := ⟨a.x - b.x, a.y - b.y, a.z - b.z⟩

/-- Scalar multiplication of a 3-vector. -/
def Vec3.smul (c : ℝ) (v : Vec3) : Vec3 := ⟨c * v.x, c * v.y, c * v.z⟩

/-- Euclidean norm of a 3-vector, embedding `np.linalg.norm` on a length-3
array. -/
def Vec3.norm (v : Vec3) : ℝ := Real.sqrt (v.x ^ 2 + v.y ^ 2 + v.z ^ 2)

/-- The spherical-to-Cartesian direction vector computed inside both residual
functions of the spin-direction notebook:
`newsvec = np.array([np.sin(th)*np.cos(phi), np.sin(th)*np.sin(phi), np.cos(th)])`. -/
def newsvec (th phi : ℝ) : Vec3 :=
  ⟨Real.sin th * Real.cos phi, Real.sin th * Real.sin phi, Real.cos th⟩

/-- The five-component fit parameter vector
`p = [oscale, pscale, damp, th, phi]` unpacked at the top of both residual
functions. -/
structure Params where
  oscale : ℝ
  pscale : ℝ
  damp : ℝ
  th : ℝ
  phi : ℝ

/-- The mutable state the notebook cells close over: the magnetic structure
`mstr` (per-site spins, the species' shared basis vector, propagation vector
and site positions), the calculator `mc` (three scalar nuisance parameters and
the r-grid limits), and the two boolean masks `upMask`/`downMask` built once
before the masked fit. -/
@[ext]
structure NBState (n : ℕ) where
  spins : Fin n → Vec3
  basisvecs : Vec3
  kvecs : Vec3
  atoms : Fin n → Vec3
  ordScale : ℝ
  paraScale : ℝ
  dampRate : ℝ
  rmin : ℝ
  rmax : ℝ
  upMask : Fin n → Bool
  downMask : Fin n → Bool

/-- Modelled from the spec: the data the external MPDFcalculator consumes when
producing the calculated signal — the per-site spin configuration, the site
positions, the three mutable scalar nuisance parameters (ordered-scale,
paramagnetic-scale, damping-rate) and the fixed independent-variable grid
limits.  The calculator itself (diffpy.mpdf's MPDFcalculator.calc) is not part
of this repository; theorems quantify over an arbitrary calculator function of
this input. -/
@[ext]
structure CalcInput (n : ℕ) where
  spins : Fin n → Vec3
  atoms : Fin n → Vec3
  ordScale : ℝ
  paraScale : ℝ
  dampRate : ℝ
  rmin : ℝ
  rmax : ℝ

/-- Modelled from the spec: the type of the external calculator operation
`mc.calc(both=True)`: from the consumed state it returns three components
(index 2 being the combined signal), each a 1-D array over the fixed
m-point grid. -/
def CalcFun (n m : ℕ) : Type := CalcInput n → Fin 3 → Fin m → ℝ

/-- Projection of the notebook state onto the data the calculator consumes. -/
def calcInput {n : ℕ} (st : NBState n) : CalcInput n :=
  ⟨st.spins, st.atoms, st.ordScale, st.paraScale, st.dampRate, st.rmin, st.rmax⟩

/-- Modelled from the spec: diffpy.mpdf's `makeSpins` is not part of this
repository.  Per the spec it regenerates every site's spin from the species'
propagation-vector and basis-vector rules; we model the propagation-vector
rule as a fixed per-site scalar phase (±1 for a collinear two-domain
structure), so regeneration sets the spin of site i to `phase i • basisvecs`. -/
def makeSpins {n : ℕ} (phase : Fin n → ℝ) (st : NBState n) : NBState n :=
  { st with spins := fun i => Vec3.smul (phase i) st.basisvecs }

/-- The regeneration-based residual function of the spin-direction notebook:
compute `newsvec` from (th, phi), assign it as the species' basis vector,
call `makeSpins`, set the three calculator scalars, and return
`ydata - mc.calc(both=True)[2]`.  The returned pair is (mutated closure state,
residual array). -/
def residualRegen {n m : ℕ} (cb : CalcFun n m) (phase : Fin n → ℝ)
    (st : NBState n) (p : Params) (ydata : Fin m → ℝ) :
    NBState n × (Fin m → ℝ) :=
  let nsv := newsvec p.th p.phi
  let st1 := makeSpins phase { st with basisvecs := nsv }
  let st2 := { st1 with ordScale := p.oscale, paraScale := p.pscale,
                        dampRate := p.damp }
  (st2, fun j => ydata j - cb (calcInput st2) 2 j)

/-- The masked residual function of the spin-direction notebook: compute
`newsvec` from (th, phi), overwrite the sites selected by `upMask` with
`newsvec` and then the sites selected by `downMask` with `-newsvec`, set the
three calculator scalars, and return `ydata - mc.calc(both=True)[2]`.  The
returned pair is (mutated closure state, residual array). -/
def residualMasked {n m : ℕ} (cb : CalcFun n m)
    (st : NBState n) (p : Params) (ydata : Fin m → ℝ) :
    NBState n × (Fin m → ℝ) :=
  let nsv := newsvec p.th p.phi
  let spins1 := fun i => if st.upMask i = true then nsv else st.spins i
  let spins2 := fun i => if st.downMask i = true then Vec3.neg nsv else spins1 i
  let st2 := { st with spins := spins2, ordScale := p.oscale,
                       paraScale := p.pscale, dampRate := p.damp }
  (st2, fun j => ydata j - cb (calcInput st2) 2 j)

/-- The mask-A membership test of the mask-construction cell: site i is in
`upMask` iff its current spin is within Euclidean distance 0.1 of the
reference vector `svec`
(`upMask = (np.apply_along_axis(np.linalg.norm,1,mstr.spins-svec)<0.1)`). -/
def upMaskSpec {n : ℕ} (spins : Fin n → Vec3) (svec : Vec3) (i : Fin n) : Prop :=
  Vec3.norm (Vec3.sub (spins i) svec) < 0.1

/-- The mask-B membership test: the complement of `upMask`
(`downMask = ~upMask`). -/
def downMaskSpec {n : ℕ} (spins : Fin n → Vec3) (svec : Vec3) (i : Fin n) : Prop :=
  ¬ upMaskSpec spins svec i

/-- The initial parameter vector of both fit cells:
`p0 = [0.1, 0.1, 0.1, np.arccos(np.random.uniform(-1,1)), np.random.uniform(-np.pi,np.pi)]`,
as a function of the two underlying uniform draws u ∈ [-1,1] and
v ∈ [-π,π]. -/
def p0fun (u v : ℝ) : Params :=
  ⟨0.1, 0.1, 0.1, Real.arccos u, v⟩

/-- The lower bounds `[0,0,0,0,-np.pi]` passed to `least_squares`. -/
def lsqLower : Params := ⟨0, 0, 0, 0, -Real.pi⟩

/-- The upper bounds `[10,10,10,np.pi,np.pi]` passed to `least_squares`. -/
def lsqUpper : Params := ⟨10, 10, 10, Real.pi, Real.pi⟩

/-- A parameter vector lies componentwise within the box bounds passed to the
solver. -/
def inBounds (p : Params) : Prop :=
  lsqLower.oscale ≤ p.oscale ∧ p.oscale ≤ lsqUpper.oscale ∧
  lsqLower.pscale ≤ p.pscale ∧ p.pscale ≤ lsqUpper.pscale ∧
  lsqLower.damp ≤ p.damp ∧ p.damp ≤ lsqUpper.damp ∧
  lsqLower.th ≤ p.th ∧ p.th ≤ lsqUpper.th ∧
  lsqLower.phi ≤ p.phi ∧ p.phi ≤ lsqUpper.phi

/-- The property that an initialization component is genuinely drawn from the
random source: its value depends on the underlying uniform draws. -/
def dependsOnDraws (f : ℝ → ℝ → ℝ) : Prop :=
  ∃ u1 v1 u2 v2, f u1 v1 ≠ f u2 v2

/-- Modelled from the spec: one run of the external bounded least-squares
solver (scipy's `least_squares`), recorded as the ordered list of parameter
vectors at which it evaluates the residual callable, together with the
converged parameter vector it returns.  The solver itself is an opaque
collaborator. -/
structure SolverRun where
  evals : List Params
  xstar : Params

/-- The closure state left behind after the solver has evaluated the masked
residual at each of its trial points in order. -/
def runMasked {n m : ℕ} (cb : CalcFun n m) (st0 : NBState n)
    (evals : List Params) (ydata : Fin m → ℝ) : NBState n :=
  evals.foldl (fun st p => (residualMasked cb st p ydata).1) st0

/-- The final fitted signal of the masked-fit cell:
`fit = mc.calc(both=True)[2]` evaluated on whatever calculator state the
solver run left behind. -/
def fitSignalMasked {n m : ℕ} (cb : CalcFun n m) (st0 : NBState n)
    (run : SolverRun) (ydata : Fin m → ℝ) : Fin m → ℝ :=
  cb (calcInput (runMasked cb st0 run.evals ydata)) 2

/-- The closure state left behind after the solver has evaluated the
regeneration-based residual at each of its trial points in order. -/
def runRegen {n m : ℕ} (cb : CalcFun n m) (phase : Fin n → ℝ) (st0 : NBState n)
    (evals : List Params) (ydata : Fin m → ℝ) : NBState n :=
  evals.foldl (fun st p => (residualRegen cb phase st p ydata).1) st0

/-- The final fitted signal of the regeneration-based fit cell:
`fit = mc.calc(both=True)[2]` evaluated on whatever calculator state the
solver run left behind. -/
def fitSignalRegen {n m : ℕ} (cb : CalcFun n m) (phase : Fin n → ℝ)
    (st0 : NBState n) (run : SolverRun) (ydata : Fin m → ℝ) : Fin m → ℝ :=
  cb (calcInput (runRegen cb phase st0 run.evals ydata)) 2

/-- The `mpdf(parascale, ordscale, damp)` function registered with the
co-refinement notebook's FitContribution: set the three calculator scalars,
call `mc.magstruc.makeAll()` (spin regeneration), and return
`mc.calc(both=True)[2]`.  The returned pair is (mutated closure state,
returned array). -/
def mpdf {n m : ℕ} (cb : CalcFun n m) (phase : Fin n → ℝ) (st : NBState n)
    (parascale ordscale damp : ℝ) : NBState n × (Fin m → ℝ) :=
  let st1 := { st with paraScale := parascale, ordScale := ordscale,
                       dampRate := damp }
  let st2 := makeSpins phase st1
  (st2, fun j => cb (calcInput st2) 2 j)

/-! ### Helper lemmas -/

/-- The spherical-to-Cartesian map always lands on the unit sphere. -/
theorem newsvec_norm_one (th phi : ℝ) : Vec3.norm (newsvec th phi) = 1 := by
  have h : (Real.sin th * Real.cos phi) ^ 2 + (Real.sin th * Real.sin phi) ^ 2
      + (Real.cos th) ^ 2 = 1 := by
    have h1 := Real.sin_sq_add_cos_sq phi
    have h2 := Real.sin_sq_add_cos_sq th
    nlinarith [h1, h2]
  simp only [newsvec, Vec3.norm]
  rw [h, Real.sqrt_one]

theorem sqrt_four_eq_two : Real.sqrt 4 = 2 := by
  rw [show (4 : ℝ) = 2 ^ 2 by norm_num, Real.sqrt_sq (by norm_num : (0:ℝ) ≤ 2)]

/-- Scaling by 1 is the identity. -/
theorem Vec3.smul_one (v : Vec3) : Vec3.smul 1 v = v := by
  simp [Vec3.smul]

/-- Scaling by -1 is negation. -/
theorem Vec3.smul_neg_one (v : Vec3) : Vec3.smul (-1) v = Vec3.neg v := by
  simp [Vec3.smul, Vec3.neg]

/-- A vector is at distance 0 from itself. -/
theorem Vec3.norm_sub_self (v : Vec3) : Vec3.norm (Vec3.sub v v) = 0 := by
  simp [Vec3.sub, Vec3.norm]

/-- The distance between a unit vector and its negation is 2. -/
theorem Vec3.norm_neg_sub_self (v : Vec3) (h : Vec3.norm v = 1) :
    Vec3.norm (Vec3.sub (Vec3.neg v) v) = 2 := by
  have hsq : v.x ^ 2 + v.y ^ 2 + v.z ^ 2 = 1 := by
    have := h
    rw [Vec3.norm, Real.sqrt_eq_one] at this
    exact this
  have : Vec3.norm (Vec3.sub (Vec3.neg v) v)
      = Real.sqrt ((-v.x - v.x) ^ 2 + (-v.y - v.y) ^ 2 + (-v.z - v.z) ^ 2) := rfl
  rw [this, show (-v.x - v.x) ^ 2 + (-v.y - v.y) ^ 2 + (-v.z - v.z) ^ 2
      = 4 * (v.x ^ 2 + v.y ^ 2 + v.z ^ 2) by ring, hsq, mul_one, sqrt_four_eq_two]

/-! ### Claim theorems -/

/-- C3: for every (θ, φ) with θ ∈ [0, π] and φ ∈ [−π, π], the direction vector
produced by both residual functions (their shared `newsvec` computation)
equals (sin θ · cos φ, sin θ · sin φ, cos θ) and has unit Euclidean norm,
exactly over the reals. -/
theorem newsvec_formula_and_unit_norm (th phi : ℝ)
    (hth0 : 0 ≤ th) (hth1 : th ≤ Real.pi)
    (hphi0 : -Real.pi ≤ phi) (hphi1 : phi ≤ Real.pi) :
    newsvec th phi
      = ⟨Real.sin th * Real.cos phi, Real.sin th * Real.sin phi, Real.cos th⟩
    ∧ Vec3.norm (newsvec th phi) = 1 :=
  ⟨rfl, newsvec_norm_one th phi⟩

/-- Witness for C3 at θ = 0, φ = 0. -/
theorem newsvec_formula_and_unit_norm_witness :
    ((0:ℝ) ≤ 0 ∧ (0:ℝ) ≤ Real.pi ∧ -Real.pi ≤ (0:ℝ) ∧ (0:ℝ) ≤ Real.pi) ∧
    (newsvec 0 0
        = ⟨Real.sin 0 * Real.cos 0, Real.sin 0 * Real.sin 0, Real.cos 0⟩
      ∧ Vec3.norm (newsvec 0 0) = 1) := by
  have hpi := Real.pi_nonneg
  exact ⟨⟨le_refl 0, hpi, by linarith, hpi⟩,
    newsvec_formula_and_unit_norm 0 0 (le_refl 0) hpi (by linarith) hpi⟩

/-- C9: the direction produced at the pole θ = 0 is independent of φ: for any
φ1, φ2 in [−π, π] the direction vectors agree and both equal (0, 0, 1). -/
theorem newsvec_pole_degeneracy (phi1 phi2 : ℝ)
    (h1 : -Real.pi ≤ phi1) (h2 : phi1 ≤ Real.pi)
    (h3 : -Real.pi ≤ phi2) (h4 : phi2 ≤ Real.pi) :
    newsvec 0 phi1 = newsvec 0 phi2 ∧ newsvec 0 phi1 = ⟨0, 0, 1⟩ := by
  constructor <;> simp [newsvec]

/-- Witness for C9 at φ1 = 0, φ2 = 0. -/
theorem newsvec_pole_degeneracy_witness :
    (-Real.pi ≤ (0:ℝ) ∧ (0:ℝ) ≤ Real.pi ∧ -Real.pi ≤ (0:ℝ) ∧ (0:ℝ) ≤ Real.pi) ∧
    (newsvec 0 0 = newsvec 0 0 ∧ newsvec 0 0 = ⟨0, 0, 1⟩) := by
  have hpi := Real.pi_nonneg
  exact ⟨⟨by linarith, hpi, by linarith, hpi⟩,
    newsvec_pole_degeneracy 0 0 (by linarith) hpi (by linarith) hpi⟩

/-- C5: for every spin array and reference vector, mask A (sites within
Euclidean distance 0.1 of the reference) and mask B (its complement) are
disjoint and their union covers every site: the two masks form a partition of
the site indices. -/
theorem mask_partition {n : ℕ} (spins : Fin n → Vec3) (svec : Vec3) (i : Fin n) :
    (upMaskSpec spins svec i ∨ downMaskSpec spins svec i) ∧
    ¬ (upMaskSpec spins svec i ∧ downMaskSpec spins svec i) := by
  unfold downMaskSpec
  refine ⟨?_, ?_⟩
  · exact (em (upMaskSpec spins svec i)).imp id id
  · rintro ⟨h, hn⟩
    exact hn h

/-- C2: one evaluation of the masked residual overwrites every site selected
by `upMask` with +direction and every site selected by `downMask` with
−direction, so that afterwards (the two masks being complementary, as
constructed) every spin equals +direction or −direction. -/
theorem masked_residual_overwrites {n m : ℕ} (cb : CalcFun n m) (st : NBState n)
    (p : Params) (ydata : Fin m → ℝ)
    (hdown : ∀ i, st.downMask i = !st.upMask i) :
    (∀ i, st.upMask i = true →
        (residualMasked cb st p ydata).1.spins i = newsvec p.th p.phi) ∧
    (∀ i, st.downMask i = true →
        (residualMasked cb st p ydata).1.spins i = Vec3.neg (newsvec p.th p.phi)) ∧
    (∀ i, (residualMasked cb st p ydata).1.spins i = newsvec p.th p.phi ∨
        (residualMasked cb st p ydata).1.spins i = Vec3.neg (newsvec p.th p.phi)) := by
  refine ⟨?_, ?_, ?_⟩
  · intro i hup
    simp only [residualMasked, hdown i, hup]
    simp
  · intro i hdn
    simp only [residualMasked, hdn]
    simp
  · intro i
    rcases Bool.eq_false_or_eq_true (st.upMask i) with hup | hup
    · left
      simp only [residualMasked, hdown i, hup]
      simp
    · right
      simp only [residualMasked, hdown i, hup]
      simp

/-- The two-site toy structure of the C2 scenario: sites 0 and 1, mask A = {0},
mask B = {1}, with arbitrary concrete values for the remaining fields. -/
def twoSiteState : NBState 2 where
  spins := fun i => if i.val = 0 then ⟨0, 0, 1⟩ else ⟨0, 0, -1⟩
  basisvecs := ⟨0, 0, 1⟩
  kvecs := ⟨0.5, 0.5, 0.5⟩
  atoms := fun _ => ⟨0, 0, 0⟩
  ordScale := 0.1
  paraScale := 0.1
  dampRate := 0.1
  rmin := 0
  rmax := 1
  upMask := fun i => i.val == 0
  downMask := fun i => !(i.val == 0)

/-- A concrete calculator returning the zero signal, used to instantiate the
claim theorems at concrete inputs. -/
def wCb : CalcFun 2 1 := fun _ _ _ => 0

/-- The concrete parameter tuple (0.1, 0.1, 0.1, θ = 0, φ = 0) of the C2
scenario. -/
def wP : Params := ⟨0.1, 0.1, 0.1, 0, 0⟩

/-- Concrete observed data: the zero array. -/
def wYdata : Fin 1 → ℝ := fun _ => 0

/-- Witness for C2: on the two-site structure with A = {0}, B = {1} and
θ = 0, φ = 0, the masked update yields the spin array [(0,0,1), (0,0,-1)]. -/
theorem masked_residual_overwrites_witness :
    (∀ i, twoSiteState.downMask i = !twoSiteState.upMask i) ∧
    (residualMasked wCb twoSiteState wP wYdata).1.spins 0 = ⟨0, 0, 1⟩ ∧
    (residualMasked wCb twoSiteState wP wYdata).1.spins 1 = ⟨0, 0, -1⟩ := by
  have hdown : ∀ i, twoSiteState.downMask i = !twoSiteState.upMask i := by
    intro i
    rfl
  obtain ⟨hA, hB, _⟩ := masked_residual_overwrites wCb twoSiteState wP wYdata hdown
  refine ⟨hdown, ?_, ?_⟩
  · rw [hA 0 (by rfl)]
    simp [wP, newsvec]
  · rw [hB 1 (by rfl)]
    simp [wP, newsvec, Vec3.neg]

/-- C4: one evaluation of the regeneration-based residual computes the
direction vector from (θ, φ), assigns it as the species' shared basis vector,
invokes the full per-site spin regeneration (`makeSpins`, so each site's spin
becomes its phase times the new basis vector), sets the three scalar nuisance
parameters on the calculator, and returns the elementwise difference
observed − calculated. -/
theorem regen_residual_steps {n m : ℕ} (cb : CalcFun n m) (phase : Fin n → ℝ)
    (st : NBState n) (p : Params) (ydata : Fin m → ℝ) :
    (residualRegen cb phase st p ydata).1.basisvecs = newsvec p.th p.phi ∧
    (residualRegen cb phase st p ydata).1.spins
      = (makeSpins phase { st with basisvecs := newsvec p.th p.phi }).spins ∧
    (residualRegen cb phase st p ydata).1.spins
      = (fun i => Vec3.smul (phase i) (newsvec p.th p.phi)) ∧
    (residualRegen cb phase st p ydata).1.ordScale = p.oscale ∧
    (residualRegen cb phase st p ydata).1.paraScale = p.pscale ∧
    (residualRegen cb phase st p ydata).1.dampRate = p.damp ∧
    (residualRegen cb phase st p ydata).2
      = (fun j => ydata j
          - cb (calcInput (residualRegen cb phase st p ydata).1) 2 j) :=
  ⟨rfl, rfl, rfl, rfl, rfl, rfl, rfl⟩

/-- C6 counterexample: the ordered-scale component of the initial parameter
vector is the constant 0.1, so it does not depend on the underlying random
draws; it is not randomly initialized, contrary to the claim that every
component is drawn at random within its bounds. -/
theorem p0_oscale_not_random :
    ¬ dependsOnDraws (fun u v => (p0fun u v).oscale) := by
  rintro ⟨u1, v1, u2, v2, h⟩
  exact h rfl

/-- C6 amended: the initial parameter vector is
[0.1, 0.1, 0.1, arccos u, v] where u, v are the two uniform draws: the first
three components are the fixed constant 0.1, only θ and φ are drawn randomly
(θ = arccos of a uniform draw in [−1, 1], φ a uniform draw in [−π, π]), and
every component lies within the solver's box bounds. -/
theorem p0_within_bounds (u v : ℝ) (hu1 : -1 ≤ u) (hu2 : u ≤ 1)
    (hv1 : -Real.pi ≤ v) (hv2 : v ≤ Real.pi) :
    (p0fun u v).oscale = 0.1 ∧ (p0fun u v).pscale = 0.1 ∧
    (p0fun u v).damp = 0.1 ∧ (p0fun u v).th = Real.arccos u ∧
    (p0fun u v).phi = v ∧ inBounds (p0fun u v) := by
  refine ⟨rfl, rfl, rfl, rfl, rfl, ?_⟩
  unfold inBounds p0fun lsqLower lsqUpper
  exact ⟨by norm_num, by norm_num, by norm_num, by norm_num, by norm_num,
    by norm_num, Real.arccos_nonneg u, Real.arccos_le_pi u, hv1, hv2⟩

/-- Witness for C6 amended at u = 0, v = 0. -/
theorem p0_within_bounds_witness :
    ((-1 : ℝ) ≤ 0 ∧ (0:ℝ) ≤ 1 ∧ -Real.pi ≤ (0:ℝ) ∧ (0:ℝ) ≤ Real.pi) ∧
    ((p0fun 0 0).oscale = 0.1 ∧ (p0fun 0 0).pscale = 0.1 ∧
     (p0fun 0 0).damp = 0.1 ∧ (p0fun 0 0).th = Real.arccos 0 ∧
     (p0fun 0 0).phi = 0 ∧ inBounds (p0fun 0 0)) := by
  have hpi := Real.pi_nonneg
  exact ⟨⟨by norm_num, by norm_num, by linarith, hpi⟩,
    p0_within_bounds 0 0 (by norm_num) (by norm_num) (by linarith) hpi⟩

/-- C10: every model evaluation (both residual paths and the co-refinement's
`mpdf` function) sets exactly the three scalar nuisance parameters on the
calculator (leaving its grid limits untouched) and consumes only the combined
component, index 2, of the calculator's both=True output: two calculators
agreeing on component 2 yield identical outputs. -/
theorem model_evals_scalars_and_component_two {n m : ℕ} (cb1 cb2 : CalcFun n m)
    (phase : Fin n → ℝ) (st : NBState n) (p : Params) (ydata : Fin m → ℝ)
    (ps os dm : ℝ)
    (h2 : ∀ inp j, cb1 inp 2 j = cb2 inp 2 j) :
    ((residualRegen cb1 phase st p ydata).1.ordScale = p.oscale ∧
     (residualRegen cb1 phase st p ydata).1.paraScale = p.pscale ∧
     (residualRegen cb1 phase st p ydata).1.dampRate = p.damp ∧
     (residualRegen cb1 phase st p ydata).1.rmin = st.rmin ∧
     (residualRegen cb1 phase st p ydata).1.rmax = st.rmax) ∧
    ((residualMasked cb1 st p ydata).1.ordScale = p.oscale ∧
     (residualMasked cb1 st p ydata).1.paraScale = p.pscale ∧
     (residualMasked cb1 st p ydata).1.dampRate = p.damp ∧
     (residualMasked cb1 st p ydata).1.rmin = st.rmin ∧
     (residualMasked cb1 st p ydata).1.rmax = st.rmax) ∧
    ((mpdf cb1 phase st ps os dm).1.paraScale = ps ∧
     (mpdf cb1 phase st ps os dm).1.ordScale = os ∧
     (mpdf cb1 phase st ps os dm).1.dampRate = dm ∧
     (mpdf cb1 phase st ps os dm).1.rmin = st.rmin ∧
     (mpdf cb1 phase st ps os dm).1.rmax = st.rmax) ∧
    (residualRegen cb1 phase st p ydata).2 = (residualRegen cb2 phase st p ydata).2 ∧
    (residualMasked cb1 st p ydata).2 = (residualMasked cb2 st p ydata).2 ∧
    (mpdf cb1 phase st ps os dm).2 = (mpdf cb2 phase st ps os dm).2 := by
  refine ⟨⟨rfl, rfl, rfl, rfl, rfl⟩, ⟨rfl, rfl, rfl, rfl, rfl⟩,
    ⟨rfl, rfl, rfl, rfl, rfl⟩, ?_, ?_, ?_⟩
  · funext j
    simp only [residualRegen]
    rw [h2]
  · funext j
    simp only [residualMasked]
    rw [h2]
  · funext j
    simp only [mpdf]
    rw [h2]

/-- A second concrete calculator, agreeing with `wCb` on component 2 but
differing on the other components. -/
def wCb2 : CalcFun 2 1 := fun _ c _ => if c = 2 then 0 else 1

/-- Witness for C10 on the two-site toy state with the two concrete
calculators that agree on component 2. -/
theorem model_evals_scalars_and_component_two_witness :
    (∀ inp j, wCb inp 2 j = wCb2 inp 2 j) ∧
    ((residualRegen wCb (fun _ => 1) twoSiteState wP wYdata).1.ordScale = wP.oscale ∧
     (residualRegen wCb (fun _ => 1) twoSiteState wP wYdata).1.paraScale = wP.pscale ∧
     (residualRegen wCb (fun _ => 1) twoSiteState wP wYdata).1.dampRate = wP.damp ∧
     (residualRegen wCb (fun _ => 1) twoSiteState wP wYdata).1.rmin = twoSiteState.rmin ∧
     (residualRegen wCb (fun _ => 1) twoSiteState wP wYdata).1.rmax = twoSiteState.rmax) ∧
    ((residualMasked wCb twoSiteState wP wYdata).1.ordScale = wP.oscale ∧
     (residualMasked wCb twoSiteState wP wYdata).1.paraScale = wP.pscale ∧
     (residualMasked wCb twoSiteState wP wYdata).1.dampRate = wP.damp ∧
     (residualMasked wCb twoSiteState wP wYdata).1.rmin = twoSiteState.rmin ∧
     (residualMasked wCb twoSiteState wP wYdata).1.rmax = twoSiteState.rmax) ∧
    ((mpdf wCb (fun _ => 1) twoSiteState 1 2 3).1.paraScale = 1 ∧
     (mpdf wCb (fun _ => 1) twoSiteState 1 2 3).1.ordScale = 2 ∧
     (mpdf wCb (fun _ => 1) twoSiteState 1 2 3).1.dampRate = 3 ∧
     (mpdf wCb (fun _ => 1) twoSiteState 1 2 3).1.rmin = twoSiteState.rmin ∧
     (mpdf wCb (fun _ => 1) twoSiteState 1 2 3).1.rmax = twoSiteState.rmax) ∧
    (residualRegen wCb (fun _ => 1) twoSiteState wP wYdata).2
      = (residualRegen wCb2 (fun _ => 1) twoSiteState wP wYdata).2 ∧
    (residualMasked wCb twoSiteState wP wYdata).2
      = (residualMasked wCb2 twoSiteState wP wYdata).2 ∧
    (mpdf wCb (fun _ => 1) twoSiteState 1 2 3).2
      = (mpdf wCb2 (fun _ => 1) twoSiteState 1 2 3).2 := by
  have h2 : ∀ inp j, wCb inp 2 j = wCb2 inp 2 j := by
    intro inp j
    simp [wCb, wCb2]
  exact ⟨h2, model_evals_scalars_and_component_two wCb wCb2 (fun _ => 1)
    twoSiteState wP wYdata 1 2 3 h2⟩

/-- One evaluation of the masked residual leaves every field other than the
spins and the three calculator scalars unchanged. -/
theorem residualMasked_frame {n m : ℕ} (cb : CalcFun n m) (st : NBState n)
    (p : Params) (ydata : Fin m → ℝ) :
    (residualMasked cb st p ydata).1.upMask = st.upMask ∧
    (residualMasked cb st p ydata).1.downMask = st.downMask ∧
    (residualMasked cb st p ydata).1.atoms = st.atoms ∧
    (residualMasked cb st p ydata).1.kvecs = st.kvecs ∧
    (residualMasked cb st p ydata).1.basisvecs = st.basisvecs ∧
    (residualMasked cb st p ydata).1.rmin = st.rmin ∧
    (residualMasked cb st p ydata).1.rmax = st.rmax :=
  ⟨rfl, rfl, rfl, rfl, rfl, rfl, rfl⟩

/-- A whole solver run of masked-residual evaluations leaves the masks, the
site positions, the propagation vector, the basis vector and the grid limits
unchanged. -/
theorem runMasked_frame {n m : ℕ} (cb : CalcFun n m) (ydata : Fin m → ℝ)
    (evals : List Params) (st : NBState n) :
    (runMasked cb st evals ydata).upMask = st.upMask ∧
    (runMasked cb st evals ydata).downMask = st.downMask ∧
    (runMasked cb st evals ydata).atoms = st.atoms ∧
    (runMasked cb st evals ydata).kvecs = st.kvecs ∧
    (runMasked cb st evals ydata).basisvecs = st.basisvecs ∧
    (runMasked cb st evals ydata).rmin = st.rmin ∧
    (runMasked cb st evals ydata).rmax = st.rmax := by
  induction evals generalizing st with
  | nil => exact ⟨rfl, rfl, rfl, rfl, rfl, rfl, rfl⟩
  | cons q t ih =>
    have hstep : runMasked cb st (q :: t) ydata
        = runMasked cb (residualMasked cb st q ydata).1 t ydata := rfl
    rw [hstep]
    exact ih ((residualMasked cb st q ydata).1)

/-- C8: the site partition is never modified by the masked residual: each
evaluation, and the whole optimization run, changes only the stored per-site
spin values and the three calculator scalars, leaving mask A, mask B, the
structural data (site positions), and the propagation vector unchanged. -/
theorem masked_residual_preserves_partition {n m : ℕ} (cb : CalcFun n m)
    (st : NBState n) (p : Params) (ydata : Fin m → ℝ) (evals : List Params) :
    ((residualMasked cb st p ydata).1.upMask = st.upMask ∧
     (residualMasked cb st p ydata).1.downMask = st.downMask ∧
     (residualMasked cb st p ydata).1.atoms = st.atoms ∧
     (residualMasked cb st p ydata).1.kvecs = st.kvecs ∧
     (residualMasked cb st p ydata).1.basisvecs = st.basisvecs ∧
     (residualMasked cb st p ydata).1.rmin = st.rmin ∧
     (residualMasked cb st p ydata).1.rmax = st.rmax) ∧
    ((runMasked cb st evals ydata).upMask = st.upMask ∧
     (runMasked cb st evals ydata).downMask = st.downMask ∧
     (runMasked cb st evals ydata).atoms = st.atoms ∧
     (runMasked cb st evals ydata).kvecs = st.kvecs ∧
     (runMasked cb st evals ydata).basisvecs = st.basisvecs ∧
     (runMasked cb st evals ydata).rmin = st.rmin ∧
     (runMasked cb st evals ydata).rmax = st.rmax) :=
  ⟨residualMasked_frame cb st p ydata, runMasked_frame cb ydata evals st⟩

/-- C1: when the spin configuration is exactly two-domain collinear (every
site's spin is +svec or −svec for the unit reference vector svec the masks
were built from), the regeneration-based residual and the masked residual
leave the calculator consuming identical data, hence produce identical
calculated signals and identical residual arrays, for every parameter tuple
and observed data. -/
theorem residual_paths_equivalent {n m : ℕ} (cb : CalcFun n m)
    (phase : Fin n → ℝ) (st : NBState n) (p : Params) (ydata : Fin m → ℝ)
    (th0 phi0 : ℝ) (svec : Vec3)
    (hsvec : svec = newsvec th0 phi0)
    (hphase : ∀ i, phase i = 1 ∨ phase i = -1)
    (hspins : ∀ i, st.spins i = Vec3.smul (phase i) svec)
    (hup : ∀ i, st.upMask i = true ↔ upMaskSpec st.spins svec i)
    (hdown : ∀ i, st.downMask i = !st.upMask i) :
    calcInput (residualRegen cb phase st p ydata).1
      = calcInput (residualMasked cb st p ydata).1 ∧
    cb (calcInput (residualRegen cb phase st p ydata).1) 2
      = cb (calcInput (residualMasked cb st p ydata).1) 2 ∧
    (residualRegen cb phase st p ydata).2
      = (residualMasked cb st p ydata).2 := by
  have hnorm : Vec3.norm svec = 1 := by
    rw [hsvec]
    exact newsvec_norm_one th0 phi0
  have hupIff : ∀ i, st.upMask i = true ↔ phase i = 1 := by
    intro i
    rw [hup i]
    unfold upMaskSpec
    rw [hspins i]
    rcases hphase i with h1 | h1
    · rw [h1, Vec3.smul_one]
      constructor
      · intro _
        rfl
      · intro _
        rw [Vec3.norm_sub_self]
        norm_num
    · rw [h1, Vec3.smul_neg_one]
      constructor
      · intro hlt
        rw [Vec3.norm_neg_sub_self svec hnorm] at hlt
        norm_num at hlt
      · intro hcontra
        norm_num at hcontra
  have hspins2 : ∀ i, (residualMasked cb st p ydata).1.spins i
      = Vec3.smul (phase i) (newsvec p.th p.phi) := by
    intro i
    rcases hphase i with h1 | h1
    · have hu : st.upMask i = true := (hupIff i).mpr h1
      rw [h1, Vec3.smul_one]
      simp only [residualMasked, hdown i, hu]
      simp
    · have hu : st.upMask i = false := by
        rcases Bool.eq_false_or_eq_true (st.upMask i) with h | h
        · exfalso
          have h2 := (hupIff i).mp h
          rw [h1] at h2
          norm_num at h2
        · exact h
      rw [h1, Vec3.smul_neg_one]
      simp only [residualMasked, hdown i, hu]
      simp
  have hsp : (residualRegen cb phase st p ydata).1.spins
      = (residualMasked cb st p ydata).1.spins := by
    funext i
    rw [hspins2 i]
    rfl
  have hinput : calcInput (residualRegen cb phase st p ydata).1
      = calcInput (residualMasked cb st p ydata).1 := by
    unfold calcInput
    rw [hsp]
    rfl
  refine ⟨hinput, by rw [hinput], ?_⟩
  funext j
  show ydata j - cb (calcInput (residualRegen cb phase st p ydata).1) 2 j
      = ydata j - cb (calcInput (residualMasked cb st p ydata).1) 2 j
  rw [hinput]

/-- The per-site phases of the two-site toy structure: site 0 aligned, site 1
anti-aligned. -/
def wPhase : Fin 2 → ℝ := fun i => if i.val = 0 then 1 else -1

/-- Witness for C1 on the two-site toy structure with reference vector
(0, 0, 1) = newsvec 0 0 and phases (+1, −1). -/
theorem residual_paths_equivalent_witness :
    ((⟨0, 0, 1⟩ : Vec3) = newsvec 0 0) ∧
    (∀ i, wPhase i = 1 ∨ wPhase i = -1) ∧
    (∀ i, twoSiteState.spins i = Vec3.smul (wPhase i) ⟨0, 0, 1⟩) ∧
    (∀ i, twoSiteState.upMask i = true
        ↔ upMaskSpec twoSiteState.spins ⟨0, 0, 1⟩ i) ∧
    (∀ i, twoSiteState.downMask i = !twoSiteState.upMask i) ∧
    (calcInput (residualRegen wCb wPhase twoSiteState wP wYdata).1
        = calcInput (residualMasked wCb twoSiteState wP wYdata).1 ∧
      wCb (calcInput (residualRegen wCb wPhase twoSiteState wP wYdata).1) 2
        = wCb (calcInput (residualMasked wCb twoSiteState wP wYdata).1) 2 ∧
      (residualRegen wCb wPhase twoSiteState wP wYdata).2
        = (residualMasked wCb twoSiteState wP wYdata).2) := by
  have h1 : (⟨0, 0, 1⟩ : Vec3) = newsvec 0 0 := by
    simp [newsvec]
  have h2 : ∀ i, wPhase i = 1 ∨ wPhase i = -1 := by
    intro i
    fin_cases i
    · left
      rfl
    · right
      rfl
  have h3 : ∀ i, twoSiteState.spins i = Vec3.smul (wPhase i) ⟨0, 0, 1⟩ := by
    intro i
    fin_cases i
    · show (⟨0, 0, 1⟩ : Vec3) = Vec3.smul 1 ⟨0, 0, 1⟩
      simp [Vec3.smul]
    · show (⟨0, 0, -1⟩ : Vec3) = Vec3.smul (-1) ⟨0, 0, 1⟩
      simp [Vec3.smul]
  have h4 : ∀ i, twoSiteState.upMask i = true
      ↔ upMaskSpec twoSiteState.spins ⟨0, 0, 1⟩ i := by
    intro i
    fin_cases i
    · have hval : upMaskSpec twoSiteState.spins (⟨0, 0, 1⟩ : Vec3) ⟨0, by norm_num⟩ := by
        show Vec3.norm (Vec3.sub ⟨0, 0, 1⟩ ⟨0, 0, 1⟩) < 0.1
        rw [Vec3.norm_sub_self]
        norm_num
      simp only [hval, iff_true]
      rfl
    · have hval : ¬ upMaskSpec twoSiteState.spins (⟨0, 0, 1⟩ : Vec3) ⟨1, by norm_num⟩ := by
        show ¬ Vec3.norm (Vec3.sub ⟨0, 0, -1⟩ ⟨0, 0, 1⟩) < 0.1
        have hn : Vec3.norm (Vec3.sub ⟨0, 0, -1⟩ ⟨0, 0, 1⟩) = 2 := by
          show Real.sqrt (((0:ℝ) - 0) ^ 2 + ((0:ℝ) - 0) ^ 2 + ((-1:ℝ) - 1) ^ 2) = 2
          rw [show ((0:ℝ) - 0) ^ 2 + ((0:ℝ) - 0) ^ 2 + ((-1:ℝ) - 1) ^ 2 = 4 by norm_num]
          exact sqrt_four_eq_two
        rw [hn]
        norm_num
      simp only [hval, iff_false]
      show ¬ ((1:ℕ) == 0) = true
      decide
  have h5 : ∀ i, twoSiteState.downMask i = !twoSiteState.upMask i := by
    intro i
    rfl
  exact ⟨h1, h2, h3, h4, h5, residual_paths_equivalent wCb wPhase twoSiteState
    wP wYdata 0 0 ⟨0, 0, 1⟩ h1 h2 h3 h4 h5⟩

/-- With complementary masks, the state left by one masked-residual
evaluation is determined by the trial parameters and the read-only fields
alone: two incoming states agreeing on those fields yield the same outgoing
state, whatever their spins and scalars were. -/
theorem residualMasked_state_const {n m : ℕ} (cb : CalcFun n m)
    (s t : NBState n) (p : Params) (ydata : Fin m → ℝ)
    (hupm : s.upMask = t.upMask) (hdnm : s.downMask = t.downMask)
    (hat : s.atoms = t.atoms) (hkv : s.kvecs = t.kvecs)
    (hbv : s.basisvecs = t.basisvecs)
    (hr1 : s.rmin = t.rmin) (hr2 : s.rmax = t.rmax)
    (hcompl : ∀ i, t.downMask i = !t.upMask i) :
    (residualMasked cb s p ydata).1 = (residualMasked cb t p ydata).1 := by
  have hspins : (residualMasked cb s p ydata).1.spins
      = (residualMasked cb t p ydata).1.spins := by
    funext i
    show (if s.downMask i = true then Vec3.neg (newsvec p.th p.phi)
          else if s.upMask i = true then newsvec p.th p.phi else s.spins i)
        = (if t.downMask i = true then Vec3.neg (newsvec p.th p.phi)
          else if t.upMask i = true then newsvec p.th p.phi else t.spins i)
    rw [hupm, hdnm, hcompl i]
    rcases Bool.eq_false_or_eq_true (t.upMask i) with h | h <;> simp [h]
  have hL : (residualMasked cb s p ydata).1
      = { spins := (residualMasked cb s p ydata).1.spins,
          basisvecs := s.basisvecs, kvecs := s.kvecs, atoms := s.atoms,
          ordScale := p.oscale, paraScale := p.pscale, dampRate := p.damp,
          rmin := s.rmin, rmax := s.rmax,
          upMask := s.upMask, downMask := s.downMask } := rfl
  have hR : (residualMasked cb t p ydata).1
      = { spins := (residualMasked cb t p ydata).1.spins,
          basisvecs := t.basisvecs, kvecs := t.kvecs, atoms := t.atoms,
          ordScale := p.oscale, paraScale := p.pscale, dampRate := p.damp,
          rmin := t.rmin, rmax := t.rmax,
          upMask := t.upMask, downMask := t.downMask } := rfl
  rw [hL, hR, hspins, hupm, hdnm, hat, hkv, hbv, hr1, hr2]

/-- The state left by one regeneration-residual evaluation is determined by
the trial parameters, the phases and the read-only fields alone. -/
theorem residualRegen_state_const {n m : ℕ} (cb : CalcFun n m)
    (phase : Fin n → ℝ) (s t : NBState n) (p : Params) (ydata : Fin m → ℝ)
    (hupm : s.upMask = t.upMask) (hdnm : s.downMask = t.downMask)
    (hat : s.atoms = t.atoms) (hkv : s.kvecs = t.kvecs)
    (hr1 : s.rmin = t.rmin) (hr2 : s.rmax = t.rmax) :
    (residualRegen cb phase s p ydata).1 = (residualRegen cb phase t p ydata).1 := by
  have hL : (residualRegen cb phase s p ydata).1
      = { spins := fun i => Vec3.smul (phase i) (newsvec p.th p.phi),
          basisvecs := newsvec p.th p.phi, kvecs := s.kvecs, atoms := s.atoms,
          ordScale := p.oscale, paraScale := p.pscale, dampRate := p.damp,
          rmin := s.rmin, rmax := s.rmax,
          upMask := s.upMask, downMask := s.downMask } := rfl
  have hR : (residualRegen cb phase t p ydata).1
      = { spins := fun i => Vec3.smul (phase i) (newsvec p.th p.phi),
          basisvecs := newsvec p.th p.phi, kvecs := t.kvecs, atoms := t.atoms,
          ordScale := p.oscale, paraScale := p.pscale, dampRate := p.damp,
          rmin := t.rmin, rmax := t.rmax,
          upMask := t.upMask, downMask := t.downMask } := rfl
  rw [hL, hR, hupm, hdnm, hat, hkv, hr1, hr2]

/-- A whole solver run of regeneration-residual evaluations leaves the masks,
the site positions, the propagation vector and the grid limits unchanged. -/
theorem runRegen_frame {n m : ℕ} (cb : CalcFun n m) (phase : Fin n → ℝ)
    (ydata : Fin m → ℝ) (evals : List Params) (st : NBState n) :
    (runRegen cb phase st evals ydata).upMask = st.upMask ∧
    (runRegen cb phase st evals ydata).downMask = st.downMask ∧
    (runRegen cb phase st evals ydata).atoms = st.atoms ∧
    (runRegen cb phase st evals ydata).kvecs = st.kvecs ∧
    (runRegen cb phase st evals ydata).rmin = st.rmin ∧
    (runRegen cb phase st evals ydata).rmax = st.rmax := by
  induction evals generalizing st with
  | nil => exact ⟨rfl, rfl, rfl, rfl, rfl, rfl⟩
  | cons q t ih =>
    have hstep : runRegen cb phase st (q :: t) ydata
        = runRegen cb phase (residualRegen cb phase st q ydata).1 t ydata := rfl
    rw [hstep]
    exact ih ((residualRegen cb phase st q ydata).1)

/-- A run whose last evaluation is at p leaves the same state as a single
evaluation at p from the initial state, provided the masks are complementary. -/
theorem runMasked_last {n m : ℕ} (cb : CalcFun n m) (st0 : NBState n)
    (ydata : Fin m → ℝ) (l : List Params) (p : Params)
    (hcompl : ∀ i, st0.downMask i = !st0.upMask i) :
    runMasked cb st0 (l ++ [p]) ydata = (residualMasked cb st0 p ydata).1 := by
  have h1 : runMasked cb st0 (l ++ [p]) ydata
      = (residualMasked cb (runMasked cb st0 l ydata) p ydata).1 := by
    unfold runMasked
    rw [List.foldl_append]
    rfl
  rw [h1]
  obtain ⟨hupm, hdnm, hat, hkv, hbv, hr1, hr2⟩ := runMasked_frame cb ydata l st0
  exact residualMasked_state_const cb _ st0 p ydata hupm hdnm hat hkv hbv hr1 hr2 hcompl

/-- The regeneration-path analogue of `runMasked_last`. -/
theorem runRegen_last {n m : ℕ} (cb : CalcFun n m) (phase : Fin n → ℝ)
    (st0 : NBState n) (ydata : Fin m → ℝ) (l : List Params) (p : Params) :
    runRegen cb phase st0 (l ++ [p]) ydata = (residualRegen cb phase st0 p ydata).1 := by
  have h1 : runRegen cb phase st0 (l ++ [p]) ydata
      = (residualRegen cb phase (runRegen cb phase st0 l ydata) p ydata).1 := by
    unfold runRegen
    rw [List.foldl_append]
    rfl
  rw [h1]
  obtain ⟨hupm, hdnm, hat, hkv, hr1, hr2⟩ := runRegen_frame cb phase ydata l st0
  exact residualRegen_state_const cb phase _ st0 p ydata hupm hdnm hat hkv hr1 hr2

/-- C7 (amended): after the solver invocation returns, the final fitted
signal of each fit cell is one additional calculator call on the state left
by the solver's residual evaluations; when the solver's last residual
evaluation was at the converged parameter vector (and, for the masked path,
the masks are complementary), that state is the one corresponding to the
converged parameters, so the final signal equals the calculated signal at the
converged parameter vector. -/
theorem fit_signal_at_converged {n m : ℕ} (cb : CalcFun n m)
    (phase : Fin n → ℝ) (st0 : NBState n) (run : SolverRun) (ydata : Fin m → ℝ)
    (hcompl : ∀ i, st0.downMask i = !st0.upMask i)
    (hlast : ∃ l, run.evals = l ++ [run.xstar]) :
    fitSignalMasked cb st0 run ydata
      = cb (calcInput (residualMasked cb st0 run.xstar ydata).1) 2 ∧
    fitSignalRegen cb phase st0 run ydata
      = cb (calcInput (residualRegen cb phase st0 run.xstar ydata).1) 2 := by
  obtain ⟨l, hl⟩ := hlast
  constructor
  · unfold fitSignalMasked
    rw [hl, runMasked_last cb st0 ydata l run.xstar hcompl]
  · unfold fitSignalRegen
    rw [hl, runRegen_last cb phase st0 ydata l run.xstar]

/-- Witness for C7 (amended) on the two-site toy structure, with a
single-evaluation solver run that converges at its only trial point. -/
theorem fit_signal_at_converged_witness :
    (∀ i, twoSiteState.downMask i = !twoSiteState.upMask i) ∧
    (∃ l, (SolverRun.mk [wP] wP).evals = l ++ [(SolverRun.mk [wP] wP).xstar]) ∧
    (fitSignalMasked wCb twoSiteState (SolverRun.mk [wP] wP) wYdata
        = wCb (calcInput (residualMasked wCb twoSiteState wP wYdata).1) 2 ∧
      fitSignalRegen wCb wPhase twoSiteState (SolverRun.mk [wP] wP) wYdata
        = wCb (calcInput (residualRegen wCb wPhase twoSiteState wP wYdata).1) 2) := by
  have hcompl : ∀ i, twoSiteState.downMask i = !twoSiteState.upMask i := by
    intro i
    rfl
  have hlast : ∃ l, (SolverRun.mk [wP] wP).evals
      = l ++ [(SolverRun.mk [wP] wP).xstar] := ⟨[], rfl⟩
  exact ⟨hcompl, hlast, fit_signal_at_converged wCb wPhase twoSiteState
    (SolverRun.mk [wP] wP) wYdata hcompl hlast⟩

/-- A calculator that reports the ordered-scale as the signal, exposing which
parameter vector the final-signal computation actually used. -/
def cbOrd : CalcFun 2 1 := fun inp _ _ => inp.ordScale

/-- A trial parameter vector with ordered-scale 5. -/
def pA : Params := ⟨5, 0.1, 0.1, 0, 0⟩

/-- A converged parameter vector with ordered-scale 7. -/
def pB : Params := ⟨7, 0.1, 0.1, 0, 0⟩

/-- C7 counterexample: for a solver run whose last residual evaluation (at
ordered-scale 5) differs from the converged vector it returns (ordered-scale
7), the final fitted signal is computed from the last evaluation's calculator
state, not from the converged parameters: the claim's equality fails. -/
theorem fit_signal_not_at_converged :
    fitSignalMasked cbOrd twoSiteState (SolverRun.mk [pA] pB) wYdata
      ≠ cbOrd (calcInput (residualMasked cbOrd twoSiteState pB wYdata).1) 2 := by
  intro h
  have h0 := congrFun h 0
  have hL : fitSignalMasked cbOrd twoSiteState (SolverRun.mk [pA] pB) wYdata 0
      = (5 : ℝ) := rfl
  have hR : cbOrd (calcInput (residualMasked cbOrd twoSiteState pB wYdata).1) 2 0
      = (7 : ℝ) := rfl
  rw [hL, hR] at h0
  norm_num at h0

end
